import Mathlib

/-!
Verification of the MessagePusher dispatch engine against its
natural-language specification.

The Python sources are shallowly embedded: each persistent row or
in-memory object becomes a Lean structure, each mutating method becomes a
pure function from the old state to the new state, and machine floats
used only as wall-clock timestamps become `Int` (order and subtraction
are all the code uses).  Mutations that the Python code performs through
`save()` on a model instance are represented by returning the updated
record, since `save` writes every field of the instance back to its row.
-/

namespace MessagePusher

/-! ## MessageChannel (src/messagepusher/database/models/message_channel.py)

An Attempt row of the `message_channels` table.  Only the fields the
status-transition methods touch are carried: `status`, `error`,
`sent_at`.  `mark_as_sending`, `mark_as_success` and `mark_as_failed`
assign the new status unconditionally and then `save()` the row.
-/

structure MessageChannel where
  status : String
  error : Option String
  sent_at : Option String
deriving DecidableEq, Repr

/-- `mark_as_sending`: sets `status = "sending"` and saves. -/
def MessageChannel.mark_as_sending (c : MessageChannel) : MessageChannel :=
  { c with status := "sending" }

/-- `mark_as_success`: sets `status = "success"`, fills `sent_at` with the
given time or the current time, and saves. -/
def MessageChannel.mark_as_success (c : MessageChannel)
    (sentAt : Option String) (now : String) : MessageChannel :=
  { c with status := "success", sent_at := some (sentAt.getD now) }

/-- `mark_as_failed`: sets `status = "failed"`, records `error`, saves. -/
def MessageChannel.mark_as_failed (c : MessageChannel)
    (err : Option String) : MessageChannel :=
  { c with status := "failed", error := err }

/-! ## Task queue (src/messagepusher/core/task_queue.py) -/

inductive TaskStatus where
  | pending | processing | completed | failed | retrying | cancelled
deriving DecidableEq, Repr

/-- A `Task` of the in-memory queue.  `priority` is `TaskPriority.value`
(HIGH = 0, NORMAL = 1, LOW = 2); `created_at`, `started_at` and
`completed_at` are `time.time()` wall-clock stamps, embedded as `Int`. -/
structure QTask where
  id : String
  priority : Nat
  status : TaskStatus
  created_at : Int
  started_at : Option Int
  completed_at : Option Int
  error : Option String
  result : Option String
  retry_count : Nat
  max_retries : Nat
deriving DecidableEq, Repr

/-- `Task.__lt__`: compare priorities when they differ, `created_at`
otherwise. -/
def taskLt (a b : QTask) : Prop :=
  if a.priority ≠ b.priority then a.priority < b.priority
  else a.created_at < b.created_at

instance (a b : QTask) : Decidable (taskLt a b) := by
  unfold taskLt; infer_instance

/-- The `TaskQueue`'s mutable maps: `_tasks` (dict id → task, embedded as
an association list) and `_queue` (the `PriorityQueue`; its entries are
references to the same task objects, so it is embedded as the list of
task ids it holds, in heap order). -/
structure TaskQueueState where
  tasks : List (String × QTask)
  queue : List String
deriving DecidableEq, Repr

/-- Dictionary lookup `self._tasks.get(task_id)`. -/
def lookup_task (ts : List (String × QTask)) (id : String) : Option QTask :=
  (ts.find? (fun p => p.1 = id)).map (·.2)

/-- `TaskQueue.retry_task`: if the task exists, is `failed` and has retry
budget left, reset it to `pending`, bump `retry_count`, clear `error`,
put it back on the queue and return `True`; otherwise return `False`. -/
def retry_task (st : TaskQueueState) (id : String) : Bool × TaskQueueState :=
  match lookup_task st.tasks id with
  | none => (false, st)
  | some t =>
    if t.status = TaskStatus.failed ∧ t.retry_count < t.max_retries then
      (true,
        { st with
          tasks := st.tasks.map (fun p =>
            if p.1 = id then
              (p.1, { p.2 with
                        status := TaskStatus.pending,
                        retry_count := p.2.retry_count + 1,
                        error := none })
            else p),
          queue := st.queue ++ [id] })
    else (false, st)

/-- `TaskQueue.cancel_task`: only a `pending` task can be cancelled. -/
def cancel_task (st : TaskQueueState) (id : String) : Bool × TaskQueueState :=
  match lookup_task st.tasks id with
  | none => (false, st)
  | some t =>
    if t.status = TaskStatus.pending then
      (true,
        { st with
          tasks := st.tasks.map (fun p =>
            if p.1 = id then (p.1, { p.2 with status := TaskStatus.cancelled })
            else p) })
    else (false, st)

/-- The outcome a handler produces when `_process_task` invokes it: a
normal return value, or a raised exception carrying its text
(`str(e)`).  A missing handler raises `ValueError`, so it is the
`raised` case as well. -/
inductive HandlerOutcome where
  | returned (result : String)
  | raised (exc : String)
deriving DecidableEq, Repr

/-- `TaskQueue._process_task`, acting on the one task it was handed.
`now` is the time recorded into `started_at` and `later` the time at
which the handler finished (`completed_at`).  `cbRaises` records
whether the completion callback, if any, raises: the source wraps the
callback call in its own `try`, so the outcome is independent of it.
Returns the updated task together with the retry schedule: the worker
arms a `threading.Timer(retry_delay, retry_task)` exactly when the
handler raised and `retry_count < max_retries`. -/
def process_task (t : QTask) (now later : Int)
    (h : HandlerOutcome) (cbRaises : Bool) (retryDelay : Int) :
    QTask × Option Int :=
  let t1 := { t with status := TaskStatus.processing, started_at := some now }
  match h with
  | HandlerOutcome.returned r =>
    ({ t1 with status := TaskStatus.completed,
               completed_at := some later,
               result := some r },
     none)
  | HandlerOutcome.raised e =>
    ({ t1 with status := TaskStatus.failed,
               completed_at := some later,
               error := some e },
     if t.retry_count < t.max_retries then some retryDelay else none)

/-- The removal test of `clean_completed_tasks`: status is `COMPLETED`
or `CANCELLED`, and `task.completed_at` is truthy (a `float` is falsy
when it is `None` or `0.0`) and older than `max_age`. -/
def shouldRemove (t : QTask) (now maxAge : Int) : Bool :=
  (t.status = TaskStatus.completed || t.status = TaskStatus.cancelled)
    && (match t.completed_at with
        | some c => decide (c ≠ 0) && decide (now - c > maxAge)
        | none => false)

/-- `TaskQueue.clean_completed_tasks`: collect the ids passing
`shouldRemove` and delete them from `_tasks`. -/
def clean_completed_tasks (tasks : List (String × QTask))
    (now maxAge : Int) : List (String × QTask) :=
  tasks.filter (fun p => ! shouldRemove p.2 now maxAge)

/-! ### The priority queue's dequeue order

`queue.PriorityQueue` is a binary heap driven by `Task.__lt__`; a `get`
removes an element `m` such that no queued element compares strictly
below `m`.  The fields `__lt__` reads (`priority.value`, `created_at`)
are never mutated after construction, so the heap is embedded as the
list of queued tasks and `get` as the extraction of a `taskLt`-minimal
element. -/

/-- One `PriorityQueue.get`: extract a `taskLt`-minimal task and the
remaining queue. -/
def popMin : List QTask → Option (QTask × List QTask)
  | [] => none
  | t :: ts =>
    match popMin ts with
    | none => some (t, [])
    | some (m, rest) =>
      if taskLt m t then some (m, t :: rest) else some (t, ts)

/-- Draining loop: repeatedly `get` until the queue is empty (`fuel`
bounds the recursion; it is the queue length at the outermost call). -/
def popAllFuel : Nat → List QTask → List QTask
  | 0, _ => []
  | n + 1, l =>
    match popMin l with
    | none => []
    | some (m, rest) => m :: popAllFuel n rest

/-- The order in which the workers drain a queue `l`. -/
def popAll (l : List QTask) : List QTask :=
  popAllFuel l.length l

/-! ## Error ledger (src/messagepusher/core/error_handler.py) -/

inductive ErrorSeverity where
  | low | medium | high | critical
deriving DecidableEq, Repr

/-- One record of `_error_history` as `handle_error` builds it. -/
structure ErrorRecord where
  id : String
  type : String
  message : String
  severity : ErrorSeverity
  timestamp : String
  context : String
deriving DecidableEq, Repr

/-- The history update of `ErrorHandler.handle_error`: append the new
record, then `pop(0)` when the length exceeds `max_error_history`.
(The severity counters and notification check touch other state and are
not part of the ring.) -/
def handle_error (maxHistory : Nat) (history : List ErrorRecord)
    (r : ErrorRecord) : List ErrorRecord :=
  let h := history ++ [r]
  if h.length > maxHistory then h.tail else h

/-! ## MessageProcessor.retry_failed_messages
(src/messagepusher/core/message_processor.py)

The pass is identical for the `message_channels` and `message_ai`
tables, so one row type covers both: `key` is `channel_id` for an
Attempt and `ai_channel_id` for an AIAttempt.  The code reads
`retry_count` with `channel.get("retry_count", 0)`, so the field is
optional and defaults to 0.
-/

structure AttemptRow where
  message_id : String
  key : String
  status : String
  retry_count : Option Nat
deriving DecidableEq, Repr

/-- The effective retry count of a row: `row.get("retry_count", 0)`. -/
def rowRetries (r : AttemptRow) : Nat := r.retry_count.getD 0

/-- Modelled from the spec: `MessageChannelRepository.get_failed` /
`MessageAIRepository.get_failed` are called by `retry_failed_messages`
but absent from the repository classes under `src/`; the spec says the
pass "scans Store for `failed` attempts/AI attempts". -/
def get_failed (rows : List AttemptRow) : List AttemptRow :=
  rows.filter (fun r => r.status = "failed")

/-- Modelled from the spec: `update_retry_count(message_id=…, …_id=…,
retry_count=…)` is called by `retry_failed_messages` but absent from the
repository classes under `src/`; per the Store contract it is a
single-row `update_fields` on the row keyed by `(message_id, key)`. -/
def update_retry_count (rows : List AttemptRow) (mid key : String)
    (rc : Nat) : List AttemptRow :=
  rows.map (fun r =>
    if r.message_id = mid ∧ r.key = key then { r with retry_count := some rc }
    else r)

/-- The loop body of `retry_failed_messages` for one snapshot row:
skip it when its budget is spent, otherwise submit a Low-priority job
for it and write back `retry_count + 1`. -/
def retryStep (maxRetries : Nat)
    (acc : List AttemptRow × List (String × String)) (ch : AttemptRow) :
    List AttemptRow × List (String × String) :=
  if rowRetries ch ≥ maxRetries then acc
  else
    (update_retry_count acc.1 ch.message_id ch.key (rowRetries ch + 1),
     acc.2 ++ [(ch.message_id, ch.key)])

/-- One table's half of `MessageProcessor.retry_failed_messages`: take
the `get_failed` snapshot, then run the loop over it.  Returns the
table after the pass and the `(message_id, key)` pairs submitted to the
task queue (each a Low-priority `SEND_MESSAGE`/`AI_PROCESS` job). -/
def retry_failed_messages (maxRetries : Nat) (rows : List AttemptRow) :
    List AttemptRow × List (String × String) :=
  (get_failed rows).foldl (retryStep maxRetries) (rows, [])

/-! ## API tokens and authentication
(src/messagepusher/database/models/api_token.py, src/messagepusher/api/auth.py)

`expires_at` is a nullable column read back as an arbitrary Python
value; `is_expired` inspects its truthiness and whether it is a `str`.
`PyValue` embeds exactly those observations: `none` is Python `None`,
`str` a string, `other` any non-string non-None value together with its
truthiness.  `datetime.fromisoformat` and the wall clock are external:
they are passed in as `parse : String → Option Int` (returning `none`
when the parse raises `ValueError`) and `now : Int`, with datetimes
embedded as comparable instants. -/

inductive PyValue where
  | none
  | str (s : String)
  | other (truthy : Bool)
deriving DecidableEq, Repr

/-- Python truthiness of an `expires_at` value (`""` and `None` are
falsy). -/
def pyTruthy : PyValue → Bool
  | PyValue.none => false
  | PyValue.str s => s ≠ ""
  | PyValue.other t => t

/-- Row of the `api_tokens` table (the fields the API layer reads). -/
structure APITokenRec where
  id : String
  token : String
  status : String
  expires_at : PyValue
  default_channels : List String
  default_ai : Option String
deriving DecidableEq, Repr

/-- `APIToken.is_expired`: falsy `expires_at` → not expired; a string is
parsed, and `ValueError` (here `parse s = none`) → not expired; any
other value falls through to the final `return False`. -/
def is_expired (expiresAt : PyValue) (parse : String → Option Int)
    (now : Int) : Bool :=
  if ! pyTruthy expiresAt then false
  else
    match expiresAt with
    | PyValue.str s =>
      match parse s with
      | some t => decide (now > t)
      | Option.none => false
    | _ => false

/-- `APIToken.is_enabled`. -/
def is_enabled (tok : APITokenRec) : Bool := tok.status = "enabled"

/-- `APIToken.is_valid`: enabled and not expired. -/
def is_valid (tok : APITokenRec) (parse : String → Option Int)
    (now : Int) : Bool :=
  is_enabled tok && ! is_expired tok.expires_at parse now

/-- `APIToken.find_by_token` (via
`APITokenRepository.get_token_by_token_value`). -/
def find_by_token (tokens : List APITokenRec) (t : String) :
    Option APITokenRec :=
  tokens.find? (fun tok => tok.token = t)

/-- An HTTP reply of the API: the envelope's `code` and the HTTP
status. -/
abbrev ApiError := Nat × Nat

/-- The `require_token` decorator: missing (absent or empty) token,
unknown token, non-`enabled` status, and expiry each answer
`code 1001` before the wrapped view runs. -/
def require_token (tokenParam : Option String)
    (tokens : List APITokenRec) (parse : String → Option Int)
    (now : Int) : Except ApiError APITokenRec :=
  match tokenParam with
  | Option.none => Except.error (1001, 401)
  | some tv =>
    if tv = "" then Except.error (1001, 401)
    else
      match find_by_token tokens tv with
      | Option.none => Except.error (1001, 401)
      | some tok =>
        if tok.status ≠ "enabled" then Except.error (1001, 401)
        else if is_expired tok.expires_at parse now then
          Except.error (1001, 401)
        else Except.ok tok

/-! ## The `/api/v1/push` view (src/messagepusher/api/routes.py,
src/messagepusher/api/validators.py) -/

/-- Truthiness of an optional request parameter. -/
def pyTruthyOpt : Option String → Bool
  | some s => s ≠ ""
  | Option.none => false

/-- The parameters `validate_push_params` hands to the view. -/
structure PushParams where
  title : Option String
  content : Option String
  url : Option String
  channel_list : List String
  ai_channel : Option String
deriving DecidableEq, Repr

/-- `validate_push_params`: at least one of `title`/`content`/`url`
must be truthy (`1002` otherwise); a truthy `channels` parameter is
split on `|` into `channel_list`; a truthy `ai` becomes
`ai_channel`. -/
def validate_push_params (title content url channels ai : Option String) :
    Except ApiError PushParams :=
  if ! (pyTruthyOpt title || pyTruthyOpt content || pyTruthyOpt url) then
    Except.error (1002, 400)
  else
    Except.ok
      { title := title, content := content, url := url,
        channel_list :=
          match channels with
          | some s => if s ≠ "" then s.splitOn "|" else []
          | Option.none => [],
        ai_channel :=
          match ai with
          | some s => if s ≠ "" then some s else Option.none
          | Option.none => Option.none }

/-- Row of the `channels` (or `ai_channels`) table as the push view
reads it. -/
structure ChannelRec where
  id : String
  status : String
deriving DecidableEq, Repr

/-- Row of `messages` as `push_message` assembles it. -/
structure MessageRow where
  id : String
  api_token_id : String
  title : Option String
  content : Option String
  url : Option String
  view_token : String
deriving DecidableEq, Repr

/-- Row of `message_channels` as `push_message` inserts it
(`status = "waiting"`). -/
structure MessageChannelRow where
  message_id : String
  channel_id : String
  status : String
deriving DecidableEq, Repr

/-- Row of `message_ai` as `push_message` inserts it. -/
structure MessageAIRow where
  message_id : String
  ai_channel_id : String
  status : String
deriving DecidableEq, Repr

/-- The tables `/push` touches, plus the ids of the tasks it enqueues. -/
structure PushStore where
  channels : List ChannelRec
  ai_channels : List ChannelRec
  messages : List MessageRow
  message_channels : List MessageChannelRow
  message_ai : List MessageAIRow
  queued_message_ids : List String
deriving DecidableEq, Repr

/-- `ChannelRepository.get_channel` / `AIChannelRepository.get_ai_channel`. -/
def get_channel (channels : List ChannelRec) (cid : String) :
    Option ChannelRec :=
  channels.find? (fun c => c.id = cid)

/-- The view's per-channel test: `channel and channel.status == 'enabled'`. -/
def channelEnabled (channels : List ChannelRec) (cid : String) : Bool :=
  match get_channel channels cid with
  | some c => c.status = "enabled"
  | Option.none => false

/-- Modelled from the spec: `MessageRepository.create` is called by
`push_message` but no such method exists on `MessageRepository` under
`src/`; the Store contract says every repository offers `create`, which
inserts the given row. -/
def message_repo_create (store : PushStore) (m : MessageRow) : PushStore :=
  { store with messages := store.messages ++ [m] }

/-- Modelled from the spec: `MessageChannelRepository.add_channel` under
`src/` is a `TODO` stub that stores nothing; per the Store contract it
inserts the given `message_channels` row. -/
def message_channel_repo_add (store : PushStore) (r : MessageChannelRow) :
    PushStore :=
  { store with message_channels := store.message_channels ++ [r] }

/-- Modelled from the spec: `MessageAIRepository.save_ai_result` under
`src/` is a `TODO` stub that stores nothing; per the Store contract it
inserts the given `message_ai` row. -/
def message_ai_repo_save (store : PushStore) (r : MessageAIRow) :
    PushStore :=
  { store with message_ai := store.message_ai ++ [r] }

/-- One iteration of the channel loop of `push_message`: when the
channel exists and is enabled, append its id to `valid_channels` and
insert a `waiting` attempt row. -/
def pushChannelStep (msgId : String) (acc : List String × PushStore)
    (cid : String) : List String × PushStore :=
  if channelEnabled acc.2.channels cid then
    (acc.1 ++ [cid],
     message_channel_repo_add acc.2 ⟨msgId, cid, "waiting"⟩)
  else acc

/-- The channel loop of `push_message`: walk `channel_list`, and for
each id whose channel exists and is enabled, append it to
`valid_channels` and insert a `waiting` attempt row. -/
def pushChannelLoop (msgId : String) (channelList : List String)
    (store : PushStore) : List String × PushStore :=
  channelList.foldl (pushChannelStep msgId) ([], store)

/-- The body of `push_message` after authentication and validation.
`msgId` and `viewToken` stand for the two `uuid4()` draws.  The message
row is saved first; then the channel loop runs, and when no requested
channel was valid the view answers `1003`/400 (the message row is not
rolled back); then the AI channel is validated (`1004`/400) and its
`waiting` row saved; finally one `SEND_MESSAGE` task is enqueued and
the view answers `code 0`/200. -/
def push_message_body (tok : APITokenRec) (p : PushParams)
    (store : PushStore) (msgId viewToken : String) :
    ApiError × PushStore :=
  let channelList :=
    if p.channel_list = [] ∧ tok.default_channels ≠ [] then
      tok.default_channels
    else p.channel_list
  let aiChannel :=
    match p.ai_channel with
    | some a => some a
    | Option.none => tok.default_ai
  let store1 := message_repo_create store
    ⟨msgId, tok.id, p.title, p.content, p.url, viewToken⟩
  let channelList := if channelList = [] then tok.default_channels
                     else channelList
  let afterChannels :=
    if channelList ≠ [] then
      let (validChannels, store2) := pushChannelLoop msgId channelList store1
      if validChannels = [] ∧ channelList ≠ [] then
        Except.error ((1003, 400), store2)
      else Except.ok store2
    else Except.ok store1
  match afterChannels with
  | Except.error e => e
  | Except.ok store2 =>
    let afterAi :=
      match aiChannel with
      | some a =>
        if channelEnabled store2.ai_channels a then
          Except.ok (message_ai_repo_save store2 ⟨msgId, a, "waiting"⟩)
        else Except.error ((1004, 400), store2)
      | Option.none => Except.ok store2
    match afterAi with
    | Except.error e => e
    | Except.ok store3 =>
      ((0, 200),
       { store3 with queued_message_ids := store3.queued_message_ids ++ [msgId] })

/-- The whole `/push` pipeline: the `require_token` decorator runs
first (a `1001` answer leaves the store untouched), then parameter
validation, then the view body. -/
def handle_push (tokenParam : Option String)
    (title content url channels ai : Option String)
    (tokens : List APITokenRec) (parse : String → Option Int) (now : Int)
    (store : PushStore) (msgId viewToken : String) :
    ApiError × PushStore :=
  match require_token tokenParam tokens parse now with
  | Except.error e => (e, store)
  | Except.ok tok =>
    match validate_push_params title content url channels ai with
    | Except.error e => (e, store)
    | Except.ok p => push_message_body tok p store msgId viewToken

/-! ## Helper lemmas -/

/-- `find?` commutes with a map that leaves the predicate invariant. -/
theorem find?_map_invariant (l : List (String × QTask))
    (pred : String × QTask → Bool) (g : String × QTask → String × QTask)
    (hpred : ∀ p, pred (g p) = pred p) :
    (l.map g).find? pred = (l.find? pred).map g := by
  induction l with
  | nil => rfl
  | cons p ts ih =>
    by_cases h : pred p
    · rw [List.map_cons, List.find?_cons_of_pos _ ((hpred p).trans h),
        List.find?_cons_of_pos _ h, Option.map_some']
    · rw [List.map_cons,
        List.find?_cons_of_neg _ (by rw [hpred p]; exact h),
        List.find?_cons_of_neg _ h, ih]

/-- Looking up key `k` after updating the entry at key `id` in place. -/
theorem lookup_task_map_keyed (ts : List (String × QTask)) (id k : String)
    (f : QTask → QTask) :
    lookup_task (ts.map (fun p => if p.1 = id then (p.1, f p.2) else p)) k =
      if k = id then (lookup_task ts k).map f else lookup_task ts k := by
  unfold lookup_task
  rw [find?_map_invariant _ _ _ (fun p => by by_cases h : p.1 = id <;> simp [h])]
  cases hfind : ts.find? (fun p => p.1 = k) with
  | none => simp
  | some q =>
    have hq : q.1 = k := by simpa using List.find?_some hfind
    by_cases hk : k = id
    · simp [hq, hk]
    · have hqid : ¬ q.1 = id := by rw [hq]; exact hk
      simp [hqid, hk]

/-! ## C1 — success latch on attempts -/

/-- C1 (counterexample): the claimed success latch does not hold.  On
the row produced by `mark_as_success`, a subsequent `mark_as_failed`
rewrites the status to `"failed"` and `mark_as_sending` rewrites it to
`"sending"`; neither transition out of `"success"` is rejected. -/
theorem attempt_success_latch_counterexample :
    (MessageChannel.mark_as_success
        ⟨"pending", Option.none, Option.none⟩ Option.none
        "2024-01-01T00:00:00").status = "success" ∧
    ((MessageChannel.mark_as_success
        ⟨"pending", Option.none, Option.none⟩ Option.none
        "2024-01-01T00:00:00").mark_as_failed (some "boom")).status
      = "failed" ∧
    ((MessageChannel.mark_as_success
        ⟨"pending", Option.none, Option.none⟩ Option.none
        "2024-01-01T00:00:00").mark_as_sending).status = "sending" := by
  exact ⟨rfl, rfl, rfl⟩

/-- C1 (amended): `mark_as_sending`, `mark_as_success` and
`mark_as_failed` overwrite `status` unconditionally, so there is no
success latch: after `mark_as_success` the row's status is
`"success"`, but a subsequent `mark_as_failed` turns it into
`"failed"` (recording the error) and a subsequent `mark_as_sending`
into `"sending"`. -/
theorem attempt_marks_overwrite_status (c : MessageChannel)
    (sentAt : Option String) (now : String) (e : Option String) :
    (c.mark_as_success sentAt now).status = "success" ∧
    ((c.mark_as_success sentAt now).mark_as_failed e).status = "failed" ∧
    ((c.mark_as_success sentAt now).mark_as_failed e).error = e ∧
    ((c.mark_as_success sentAt now).mark_as_sending).status = "sending" ∧
    (c.mark_as_failed e).status = "failed" ∧
    (c.mark_as_sending).status = "sending" :=
  ⟨rfl, rfl, rfl, rfl, rfl, rfl⟩

/-! ## C2 — retry_task -/

/-- C2: `retry_task` succeeds exactly when the task exists, is
`failed`, and has budget left; on success the task becomes `pending`
with `retry_count` bumped by one and `error` cleared, the id is put
back on the queue, and no other task changes; on failure the whole
state is untouched. -/
theorem retry_task_spec (st : TaskQueueState) (id : String) :
    ((retry_task st id).1 = true ↔
      ∃ t, lookup_task st.tasks id = some t ∧
        t.status = TaskStatus.failed ∧ t.retry_count < t.max_retries) ∧
    ((retry_task st id).1 = false → (retry_task st id).2 = st) ∧
    (∀ t, lookup_task st.tasks id = some t →
      t.status = TaskStatus.failed → t.retry_count < t.max_retries →
      lookup_task (retry_task st id).2.tasks id =
        some { t with status := TaskStatus.pending,
                      retry_count := t.retry_count + 1,
                      error := Option.none } ∧
      (retry_task st id).2.queue = st.queue ++ [id] ∧
      ∀ k, k ≠ id →
        lookup_task (retry_task st id).2.tasks k = lookup_task st.tasks k) := by
  refine ⟨?_, ?_, ?_⟩
  · cases hl : lookup_task st.tasks id with
    | none => simp [retry_task, hl]
    | some t =>
      by_cases hc : t.status = TaskStatus.failed ∧ t.retry_count < t.max_retries
      · simp only [retry_task, hl, if_pos hc, true_iff]
        exact ⟨t, rfl, hc.1, hc.2⟩
      · simp only [retry_task, hl, if_neg hc, Bool.false_eq_true, false_iff]
        rintro ⟨t', ht', h1, h2⟩
        cases Option.some.inj ht'
        exact hc ⟨h1, h2⟩
  · cases hl : lookup_task st.tasks id with
    | none => simp [retry_task, hl]
    | some t =>
      by_cases hc : t.status = TaskStatus.failed ∧ t.retry_count < t.max_retries
      · simp [retry_task, hl, if_pos hc]
      · simp [retry_task, hl, if_neg hc]
  · intro t hl h1 h2
    simp only [retry_task, hl, if_pos (And.intro h1 h2)]
    refine ⟨?_, by simp, ?_⟩
    · have h := lookup_task_map_keyed st.tasks id id
        (fun u => { u with status := TaskStatus.pending,
                           retry_count := u.retry_count + 1,
                           error := Option.none })
      rw [if_pos rfl, hl] at h
      exact h
    · intro k hk
      have h := lookup_task_map_keyed st.tasks id k
        (fun u => { u with status := TaskStatus.pending,
                           retry_count := u.retry_count + 1,
                           error := Option.none })
      rw [if_neg hk] at h
      exact h

/-- Concrete failed task used as the input of the C2 witness. -/
def qtaskFailedW : QTask :=
  ⟨"t1", 1, TaskStatus.failed, 0, Option.none, some 7, some "err",
   Option.none, 0, 3⟩

/-- C2 (witness): `retry_task_spec` applied to a queue holding one
failed task with budget. -/
theorem retry_task_spec_witness :
    lookup_task (retry_task ⟨[("t1", qtaskFailedW)], []⟩ "t1").2.tasks "t1" =
      some { qtaskFailedW with status := TaskStatus.pending,
                               retry_count := 1, error := Option.none } ∧
    (retry_task ⟨[("t1", qtaskFailedW)], []⟩ "t1").2.queue = [] ++ ["t1"] := by
  have h := (retry_task_spec ⟨[("t1", qtaskFailedW)], []⟩ "t1").2.2
    qtaskFailedW (by decide) (by decide) (by decide)
  exact ⟨h.1, h.2.1⟩

/-! ## C5 — worker failure semantics -/

/-- C5: `_process_task` catches every handler exception (embedded as
totality of the function): when the handler raises, the task ends
`failed` with `completed_at` set and `error` holding the exception
text, no other field besides `status`/`started_at`/`completed_at`/
`error` changes, and a `retry_task` timer for `retry_delay` seconds is
armed exactly when `retry_count < max_retries`; when the handler
returns, the task ends `completed` and a raising callback changes
nothing (its `try` swallows the exception after the status was
already set). -/
theorem process_task_spec (t : QTask) (now later : Int) (e r : String)
    (cb : Bool) (d : Int) :
    ((process_task t now later (HandlerOutcome.raised e) cb d).1 =
      { t with status := TaskStatus.failed, started_at := some now,
               completed_at := some later, error := some e }) ∧
    ((process_task t now later (HandlerOutcome.raised e) cb d).2 = some d ↔
      t.retry_count < t.max_retries) ∧
    (process_task t now later (HandlerOutcome.returned r) true d =
      process_task t now later (HandlerOutcome.returned r) false d) ∧
    ((process_task t now later (HandlerOutcome.returned r) cb d).1.status =
      TaskStatus.completed) := by
  refine ⟨rfl, ?_, rfl, rfl⟩
  by_cases h : t.retry_count < t.max_retries
  · simp [process_task, h]
  · simp [process_task, h]

/-! ## C6 — purge of completed tasks -/

/-- Concrete cancelled task used to refute C6 as stated: cancelled
while `pending`, so `completed_at` is `None`, and created far in the
past. -/
def cancelledTaskW : QTask :=
  ⟨"c1", 1, TaskStatus.cancelled, 0, Option.none, Option.none,
   Option.none, Option.none, 0, 3⟩

/-- C6 (counterexample): `clean_completed_tasks` does not remove every
old `completed`/`cancelled` task.  A task cancelled while `pending`
has `completed_at = None` (`cancel_task` never sets it), so the
`task.completed_at and …` guard keeps it forever: with `now = 10000`
and `max_age = 3600` the cancelled task created at time 0 survives the
purge although its age exceeds the threshold. -/
theorem clean_completed_tasks_counterexample :
    ¬ (∀ p ∈ clean_completed_tasks [("c1", cancelledTaskW)] 10000 3600,
        ¬ ((p.2.status = TaskStatus.completed ∨
            p.2.status = TaskStatus.cancelled) ∧
           10000 - (p.2.completed_at.getD p.2.created_at) > 3600)) := by
  intro h
  exact h ("c1", cancelledTaskW) (by decide) (by decide)

/-- C6 (amended): `clean_completed_tasks` removes exactly the tasks
whose status is `completed` or `cancelled` AND whose `completed_at` is
set, non-zero and older than `max_age`; tasks in any other status are
never removed.  Because `cancel_task` never writes `completed_at`
(second conjunct), a task cancelled while `pending` keeps
`completed_at = None` and is therefore never purged. -/
theorem clean_completed_tasks_spec (tasks : List (String × QTask))
    (now maxAge : Int) (st : TaskQueueState) (id : String) :
    (∀ p, p ∈ clean_completed_tasks tasks now maxAge ↔
      p ∈ tasks ∧
      ¬ ((p.2.status = TaskStatus.completed ∨
          p.2.status = TaskStatus.cancelled) ∧
         ∃ c, p.2.completed_at = some c ∧ c ≠ 0 ∧ now - c > maxAge)) ∧
    (∀ k, (lookup_task (cancel_task st id).2.tasks k).map QTask.completed_at
        = (lookup_task st.tasks k).map QTask.completed_at) := by
  constructor
  · intro p
    rw [clean_completed_tasks, List.mem_filter]
    have : (! shouldRemove p.2 now maxAge) = true ↔
        ¬ ((p.2.status = TaskStatus.completed ∨
            p.2.status = TaskStatus.cancelled) ∧
           ∃ c, p.2.completed_at = some c ∧ c ≠ 0 ∧ now - c > maxAge) := by
      cases hc : p.2.completed_at with
      | none => simp [shouldRemove, hc]
      | some c =>
        by_cases hz : c = 0
        · simp [shouldRemove, hc, hz]
        · simp only [shouldRemove, hc, hz]
          constructor
          · intro h
            simp at h ⊢
            tauto
          · intro h
            simp at h ⊢
            tauto
    rw [this]
  · intro k
    cases hl : lookup_task st.tasks id with
    | none => simp [cancel_task, hl]
    | some t =>
      by_cases hp : t.status = TaskStatus.pending
      · simp only [cancel_task, hl, if_pos hp]
        have h := lookup_task_map_keyed st.tasks id k
          (fun u => { u with status := TaskStatus.cancelled })
        rw [h]
        by_cases hk : k = id
        · rw [if_pos hk]
          cases lookup_task st.tasks k <;> rfl
        · rw [if_neg hk]
      · simp [cancel_task, hl, if_neg hp]

/-! ## C7 — bounded error ring -/

/-- One `handle_error` on the `≤ maxHistory`-suffix of the records
logged so far produces the suffix of the extended log. -/
theorem handle_error_drop (m : Nat) (l : List ErrorRecord) (r : ErrorRecord) :
    handle_error m (l.drop (l.length - m)) r =
      (l ++ [r]).drop ((l ++ [r]).length - m) := by
  by_cases hlen : l.length < m
  · have h0 : l.length - m = 0 := by omega
    have h1 : (l ++ [r]).length - m = 0 := by simp; omega
    rw [h0, h1, List.drop_zero, List.drop_zero]
    have h2 : ¬ (l ++ [r]).length > m := by simp; omega
    simp only [handle_error]
    rw [if_neg h2]
  · have hge : m ≤ l.length := by omega
    have hdlen : (l.drop (l.length - m)).length = m := by
      rw [List.length_drop]; omega
    have hover : (l.drop (l.length - m) ++ [r]).length > m := by
      simp [hdlen]
    simp only [handle_error]
    rw [if_pos hover]
    rcases Nat.eq_zero_or_pos m with hm | hm
    · subst hm
      have : l.drop (l.length - 0) = [] :=
        List.drop_eq_nil_of_le (by omega)
      rw [this]
      have : (l ++ [r]).drop ((l ++ [r]).length - 0) = [] :=
        List.drop_eq_nil_of_le (by omega)
      rw [this]
      rfl
    · have hne : l.drop (l.length - m) ≠ [] := by
        intro h
        rw [h] at hdlen
        simp at hdlen
        omega
      obtain ⟨x, d, hd⟩ := List.exists_cons_of_ne_nil hne
      rw [hd]
      have : (x :: d ++ [r]).tail = d ++ [r] := rfl
      rw [this]
      have hdtail : d = (l.drop (l.length - m)).tail := by rw [hd]; rfl
      rw [hdtail, List.tail_drop]
      have harith : (l ++ [r]).length - m = (l.length - m) + 1 := by
        simp; omega
      rw [harith,
        List.drop_append_of_le_length (by omega)]

/-- Folding `handle_error` keeps the history equal to the
`maxHistory`-suffix of everything logged so far. -/
theorem foldl_handle_error (m : Nat) (rs : List ErrorRecord) :
    ∀ l : List ErrorRecord,
      rs.foldl (handle_error m) (l.drop (l.length - m)) =
        (l ++ rs).drop ((l ++ rs).length - m) := by
  induction rs with
  | nil => intro l; simp
  | cons r rs ih =>
    intro l
    rw [List.foldl_cons, handle_error_drop m l r]
    have := ih (l ++ [r])
    simpa using this

/-- C7: the error history never holds more than `max_error_history`
records: one `handle_error` preserves the bound, and starting from the
empty history, any sequence of `handle_error` calls leaves exactly the
most recent `max_error_history` records in insertion order (the
`(length - max)`-suffix of the sequence; when a record would exceed
the bound, `pop(0)` evicts the oldest). -/
theorem error_history_bounded (m : Nat) (hist : List ErrorRecord)
    (r : ErrorRecord) (rs : List ErrorRecord) :
    (hist.length ≤ m → (handle_error m hist r).length ≤ m) ∧
    rs.foldl (handle_error m) [] = rs.drop (rs.length - m) := by
  constructor
  · intro hb
    simp only [handle_error]
    by_cases h : (hist ++ [r]).length > m
    · rw [if_pos h]
      simp at h ⊢
      omega
    · rw [if_neg h]
      simp at h ⊢
      omega
  · have := foldl_handle_error m rs []
    simpa using this

/-- Concrete records for the C7 witness. -/
def errRecW1 : ErrorRecord :=
  ⟨"1", "db", "locked", ErrorSeverity.high, "t1", ""⟩

/-- Second concrete record for the C7 witness. -/
def errRecW2 : ErrorRecord :=
  ⟨"2", "http", "timeout", ErrorSeverity.low, "t2", ""⟩

/-- C7 (witness): with `max_error_history = 1`, pushing a second
record keeps the length at 1 and the fold retains only the newest
record. -/
theorem error_history_bounded_witness :
    (handle_error 1 [errRecW1] errRecW2).length ≤ 1 ∧
    [errRecW1, errRecW2].foldl (handle_error 1) [] =
      [errRecW1, errRecW2].drop ([errRecW1, errRecW2].length - 1) :=
  ⟨(error_history_bounded 1 [errRecW1] errRecW2 []).1 (by decide),
   (error_history_bounded 1 [] errRecW1 [errRecW1, errRecW2]).2⟩

/-! ## C3 — strict priority dequeue order -/

theorem taskLt_irrefl (a : QTask) : ¬ taskLt a a := by
  unfold taskLt; simp

/-- `¬ ·<·` (the weak order dual to `__lt__`) is transitive. -/
theorem not_taskLt_trans {a b c : QTask}
    (h1 : ¬ taskLt b c) (h2 : ¬ taskLt a b) : ¬ taskLt a c := by
  unfold taskLt at *
  split_ifs at * <;> omega

/-- `__lt__` is asymmetric. -/
theorem taskLt_asymm {a b : QTask} (h : taskLt a b) : ¬ taskLt b a := by
  unfold taskLt at *
  split_ifs at * <;> omega

/-- `popMin` never fails on a non-empty queue. -/
theorem popMin_eq_none {l : List QTask} (h : popMin l = none) : l = [] := by
  cases l with
  | nil => rfl
  | cons t ts =>
    exfalso
    cases hrec : popMin ts with
    | none => simp [popMin, hrec] at h
    | some p =>
      obtain ⟨u, urest⟩ := p
      simp only [popMin, hrec] at h
      by_cases hlt : taskLt u t
      · rw [if_pos hlt] at h; cases h
      · rw [if_neg hlt] at h; cases h

/-- Unfolding `popMin` on a cons cell whose tail pops empty. -/
theorem popMin_cons_none (t : QTask) (ts : List QTask)
    (h : popMin ts = none) : popMin (t :: ts) = some (t, []) := by
  simp only [popMin, h]

/-- Unfolding `popMin` on a cons cell whose tail pops `(u, urest)`. -/
theorem popMin_cons_some (t : QTask) (ts : List QTask) (u : QTask)
    (urest : List QTask) (h : popMin ts = some (u, urest)) :
    popMin (t :: ts) =
      if taskLt u t then some (u, t :: urest) else some (t, ts) := by
  simp only [popMin, h]

/-- `popMin` extracts a permutation of the queue. -/
theorem popMin_perm :
    ∀ (l : List QTask) (m : QTask) (rest : List QTask),
      popMin l = some (m, rest) → l.Perm (m :: rest) := by
  intro l
  induction l with
  | nil => intro m rest h; cases h
  | cons t ts ih =>
    intro m rest h
    cases hrec : popMin ts with
    | none =>
      rw [popMin_cons_none t ts hrec] at h
      obtain ⟨he1, he2⟩ := Prod.ext_iff.mp (Option.some.inj h)
      subst he1
      subst he2
      rw [popMin_eq_none hrec]
    | some p =>
      obtain ⟨u, urest⟩ := p
      rw [popMin_cons_some t ts u urest hrec] at h
      by_cases hlt : taskLt u t
      · rw [if_pos hlt] at h
        obtain ⟨he1, he2⟩ := Prod.ext_iff.mp (Option.some.inj h)
        subst he1
        subst he2
        exact (List.Perm.cons t (ih u urest hrec)).trans
          (List.Perm.swap u t urest)
      · rw [if_neg hlt] at h
        obtain ⟨he1, he2⟩ := Prod.ext_iff.mp (Option.some.inj h)
        subst he1
        subst he2
        exact List.Perm.refl _

/-- `popMin` extracts a minimal element: nothing that was queued
compares strictly below it. -/
theorem popMin_min :
    ∀ (l : List QTask) (m : QTask) (rest : List QTask),
      popMin l = some (m, rest) → ∀ x ∈ l, ¬ taskLt x m := by
  intro l
  induction l with
  | nil => intro m rest h; cases h
  | cons t ts ih =>
    intro m rest h x hx
    cases hrec : popMin ts with
    | none =>
      rw [popMin_cons_none t ts hrec] at h
      obtain ⟨he1, he2⟩ := Prod.ext_iff.mp (Option.some.inj h)
      subst he1
      have hts := popMin_eq_none hrec
      subst hts
      rcases List.mem_cons.mp hx with hx | hx
      · subst hx; exact taskLt_irrefl x
      · cases hx
    | some p =>
      obtain ⟨u, urest⟩ := p
      rw [popMin_cons_some t ts u urest hrec] at h
      by_cases hlt : taskLt u t
      · rw [if_pos hlt] at h
        obtain ⟨he1, he2⟩ := Prod.ext_iff.mp (Option.some.inj h)
        subst he1
        rcases List.mem_cons.mp hx with hx | hx
        · subst hx; exact taskLt_asymm hlt
        · exact ih u urest hrec x hx
      · rw [if_neg hlt] at h
        obtain ⟨he1, he2⟩ := Prod.ext_iff.mp (Option.some.inj h)
        subst he1
        rcases List.mem_cons.mp hx with hx | hx
        · subst hx; exact taskLt_irrefl x
        · exact not_taskLt_trans hlt (ih u urest hrec x hx)

/-- Draining the queue yields a permutation of it. -/
theorem popAllFuel_perm :
    ∀ (fuel : Nat) (l : List QTask), l.length ≤ fuel →
      (popAllFuel fuel l).Perm l := by
  intro fuel
  induction fuel with
  | zero =>
    intro l h
    have hl : l = [] := List.length_eq_zero.mp (Nat.le_zero.mp h)
    subst hl
    exact List.Perm.refl _
  | succ n ih =>
    intro l h
    cases hpop : popMin l with
    | none =>
      have hl := popMin_eq_none hpop
      subst hl
      simp [popAllFuel, hpop]
    | some p =>
      obtain ⟨m, rest⟩ := p
      simp only [popAllFuel, hpop]
      have hperm := popMin_perm l m rest hpop
      have hlen : l.length = rest.length + 1 := by
        simpa using hperm.length_eq
      exact ((ih rest (by omega)).cons m).trans hperm.symm

/-- Drain order is sorted: no later task compares strictly below an
earlier task. -/
theorem popAllFuel_sorted :
    ∀ (fuel : Nat) (l : List QTask), l.length ≤ fuel →
      List.Pairwise (fun a b => ¬ taskLt b a) (popAllFuel fuel l) := by
  intro fuel
  induction fuel with
  | zero => intro l h; simp [popAllFuel]
  | succ n ih =>
    intro l h
    cases hpop : popMin l with
    | none => simp [popAllFuel, hpop]
    | some p =>
      obtain ⟨m, rest⟩ := p
      simp only [popAllFuel, hpop]
      have hperm := popMin_perm l m rest hpop
      have hlen : l.length = rest.length + 1 := by
        simpa using hperm.length_eq
      refine List.Pairwise.cons ?_ (ih rest (by omega))
      intro y hy
      have hyrest : y ∈ rest :=
        (popAllFuel_perm n rest (by omega)).mem_iff.mp hy
      have hyl : y ∈ l := hperm.mem_iff.mpr (List.mem_cons_of_mem m hyrest)
      exact popMin_min l m rest hpop y hyl

/-- C3: the queue dequeues in strict `(priority, created_at)` order.
First conjunct (priority monotonicity): whenever the queue is
non-empty, the popped task's priority value is ≤ that of every queued
task.  Second conjunct (dequeue order): in the drain order of the
queue, every task `a` with `a < b` under `Task.__lt__` — smaller
priority value, or equal priority and earlier `created_at` — is
dequeued before `b`. -/
theorem queue_priority_order (l : List QTask) :
    (∀ m rest, popMin l = some (m, rest) →
      ∀ x ∈ l, m.priority ≤ x.priority) ∧
    (∀ a b l₁ l₂, popAll l = l₁ ++ b :: l₂ → a ∈ l → taskLt a b →
      a ∈ l₁) := by
  constructor
  · intro m rest h x hx
    have hmin := popMin_min l m rest h x hx
    unfold taskLt at hmin
    split_ifs at hmin <;> omega
  · intro a b l₁ l₂ heq ha hlt
    have hperm : (popAll l).Perm l := popAllFuel_perm l.length l (le_refl _)
    have hsort : List.Pairwise (fun x y => ¬ taskLt y x) (popAll l) :=
      popAllFuel_sorted l.length l (le_refl _)
    have hamem : a ∈ popAll l := hperm.mem_iff.mpr ha
    rw [heq] at hamem hsort
    rcases List.mem_append.mp hamem with h1 | h2
    · exact h1
    · rcases List.mem_cons.mp h2 with h3 | h4
      · subst h3; exact absurd hlt (taskLt_irrefl a)
      · exfalso
        have hp2 := (List.pairwise_append.mp hsort).2.1
        exact (List.pairwise_cons.mp hp2).1 a h4 hlt

/-- Concrete high-priority task of the C3 witness. -/
def tHighW : QTask :=
  ⟨"h", 0, TaskStatus.pending, 5, Option.none, Option.none, Option.none,
   Option.none, 0, 3⟩

/-- Concrete normal-priority task of the C3 witness. -/
def tLowW : QTask :=
  ⟨"l", 1, TaskStatus.pending, 3, Option.none, Option.none, Option.none,
   Option.none, 0, 3⟩

/-- C3 (witness): on the two-task queue, the high-priority task is
popped first and is dequeued before the later-priority one. -/
theorem queue_priority_order_witness :
    tHighW.priority ≤ tLowW.priority ∧ tHighW ∈ [tHighW] :=
  ⟨(queue_priority_order [tLowW, tHighW]).1 tHighW [tLowW] (by decide)
      tLowW (by decide),
   (queue_priority_order [tLowW, tHighW]).2 tHighW tLowW [tHighW] []
      (by decide) (by decide) (by decide)⟩

/-! ## C4 — retry budget -/

/-- Effect of one whole `retry_failed_messages` pass on a single row
with a unique `(message_id, key)`: a failed row with remaining budget
gets `retry_count + 1` written back, every other row is untouched. -/
def bumpRow (maxR : Nat) (r : AttemptRow) : AttemptRow :=
  if r.status = "failed" ∧ rowRetries r < maxR then
    { r with retry_count := some (rowRetries r + 1) }
  else r

/-- Store effect of one loop iteration of the pass. -/
def retryStoreStep (maxR : Nat) (st : List AttemptRow) (ch : AttemptRow) :
    List AttemptRow :=
  if rowRetries ch ≥ maxR then st
  else update_retry_count st ch.message_id ch.key (rowRetries ch + 1)

/-- Row-level effect of one loop iteration. -/
def rowUpd (maxR : Nat) (ch r : AttemptRow) : AttemptRow :=
  if rowRetries ch ≥ maxR then r
  else if r.message_id = ch.message_id ∧ r.key = ch.key then
    { r with retry_count := some (rowRetries ch + 1) }
  else r

theorem retryStep_snd (maxR : Nat) :
    ∀ (chs : List AttemptRow) (st : List AttemptRow)
      (acc : List (String × String)),
      (chs.foldl (retryStep maxR) (st, acc)).2 =
        acc ++ (chs.filter (fun ch => rowRetries ch < maxR)).map
          (fun ch => (ch.message_id, ch.key)) := by
  intro chs
  induction chs with
  | nil => intro st acc; simp
  | cons c cs ih =>
    intro st acc
    rw [List.foldl_cons]
    by_cases hb : rowRetries c ≥ maxR
    · have hfil : ¬ rowRetries c < maxR := by omega
      simp only [retryStep, if_pos hb]
      rw [ih st acc, List.filter_cons]
      simp [hfil]
    · have hfil : rowRetries c < maxR := by omega
      simp only [retryStep, if_neg hb]
      rw [ih _ _, List.filter_cons]
      simp [hfil]

theorem retryStep_fst (maxR : Nat) :
    ∀ (chs : List AttemptRow) (st : List AttemptRow)
      (acc : List (String × String)),
      (chs.foldl (retryStep maxR) (st, acc)).1 =
        chs.foldl (retryStoreStep maxR) st := by
  intro chs
  induction chs with
  | nil => intro st acc; rfl
  | cons c cs ih =>
    intro st acc
    rw [List.foldl_cons, List.foldl_cons]
    by_cases hb : rowRetries c ≥ maxR
    · simp only [retryStep, retryStoreStep, if_pos hb]
      exact ih st acc
    · simp only [retryStep, retryStoreStep, if_neg hb]
      exact ih _ _

theorem retryStoreStep_eq_map (maxR : Nat) (st : List AttemptRow)
    (ch : AttemptRow) :
    retryStoreStep maxR st ch = st.map (rowUpd maxR ch) := by
  by_cases hb : rowRetries ch ≥ maxR
  · rw [retryStoreStep, if_pos hb]
    exact ((List.map_congr_left
      (fun r _ => show rowUpd maxR ch r = r by
        unfold rowUpd; rw [if_pos hb])).trans (List.map_id' st)).symm
  · rw [retryStoreStep, if_neg hb, update_retry_count]
    exact List.map_congr_left
      (fun r _ => show _ = rowUpd maxR ch r by
        unfold rowUpd; rw [if_neg hb])

/-- The fold of per-iteration maps is the map of per-row folds. -/
theorem foldl_retryStoreStep_eq_map (maxR : Nat) :
    ∀ (chs : List AttemptRow) (st : List AttemptRow),
      chs.foldl (retryStoreStep maxR) st =
        st.map (fun r => chs.foldl (fun r ch => rowUpd maxR ch r) r) := by
  intro chs
  induction chs with
  | nil => intro st; simp
  | cons c cs ih =>
    intro st
    rw [List.foldl_cons, retryStoreStep_eq_map, ih, List.map_map]
    rfl

theorem fold_rowUpd_no_match (maxR : Nat) :
    ∀ (chs : List AttemptRow) (row : AttemptRow),
      (∀ ch ∈ chs,
        ¬ (ch.message_id = row.message_id ∧ ch.key = row.key)) →
      chs.foldl (fun r ch => rowUpd maxR ch r) row = row := by
  intro chs
  induction chs with
  | nil => intro row _; rfl
  | cons c cs ih =>
    intro row h
    rw [List.foldl_cons]
    have hstep : rowUpd maxR c row = row := by
      unfold rowUpd
      by_cases hb : rowRetries c ≥ maxR
      · rw [if_pos hb]
      · rw [if_neg hb, if_neg ?_]
        intro hc
        exact h c (List.mem_cons_self c cs) ⟨hc.1.symm, hc.2.symm⟩
    rw [hstep]
    exact ih row (fun ch hch => h ch (List.mem_cons_of_mem c hch))

theorem fold_rowUpd_eval (maxR : Nat) :
    ∀ (chs : List AttemptRow) (r : AttemptRow), chs.Nodup →
      (∀ ch ∈ chs,
        ch.message_id = r.message_id ∧ ch.key = r.key → ch = r) →
      chs.foldl (fun r ch => rowUpd maxR ch r) r =
        if r ∈ chs ∧ rowRetries r < maxR then
          { r with retry_count := some (rowRetries r + 1) }
        else r := by
  intro chs
  induction chs with
  | nil => intro r _ _; simp
  | cons c cs ih =>
    intro r hnd hmatch
    rw [List.foldl_cons]
    by_cases hkey : c.message_id = r.message_id ∧ c.key = r.key
    · have hcr : c = r := hmatch c (List.mem_cons_self c cs) hkey
      subst hcr
      have hnotin : c ∉ cs := (List.nodup_cons.mp hnd).1
      have hnomatch : ∀ ch ∈ cs,
          ¬ (ch.message_id = c.message_id ∧ ch.key = c.key) := by
        intro ch hch hc
        exact hnotin
          ((hmatch ch (List.mem_cons_of_mem c hch) hc) ▸ hch)
      by_cases hb : rowRetries c ≥ maxR
      · have hstep : rowUpd maxR c c = c := by unfold rowUpd; rw [if_pos hb]
        rw [hstep, fold_rowUpd_no_match maxR cs c hnomatch]
        rw [if_neg (by intro hc; omega)]
      · have hstep : rowUpd maxR c c =
            { c with retry_count := some (rowRetries c + 1) } := by
          unfold rowUpd
          rw [if_neg hb, if_pos ⟨rfl, rfl⟩]
        rw [hstep, fold_rowUpd_no_match maxR cs _ (by simpa using hnomatch)]
        rw [if_pos ⟨List.mem_cons_self c cs, by omega⟩]
    · have hne : r ≠ c := by
        intro hc; subst hc; exact hkey ⟨rfl, rfl⟩
      have hstep : rowUpd maxR c r = r := by
        unfold rowUpd
        by_cases hb : rowRetries c ≥ maxR
        · rw [if_pos hb]
        · rw [if_neg hb, if_neg (fun hc => hkey ⟨hc.1.symm, hc.2.symm⟩)]
      rw [hstep,
        ih r (List.nodup_cons.mp hnd).2
          (fun ch hch => hmatch ch (List.mem_cons_of_mem c hch))]
      by_cases hin : r ∈ cs ∧ rowRetries r < maxR
      · rw [if_pos hin,
          if_pos ⟨List.mem_cons_of_mem c hin.1, hin.2⟩]
      · rw [if_neg hin, if_neg ?_]
        intro hc
        rcases List.mem_cons.mp hc.1 with h1 | h1
        · exact hne h1
        · exact hin ⟨h1, hc.2⟩

/-- C4: one `retry_failed_messages` pass over a table whose
`(message_id, key)` pairs are unique (the spec's at-most-one-row-per-
pair invariant) skips exactly the failed rows whose
`retry_count ≥ max_retries` and submits a job for every other failed
row (first conjunct, the submitted job list); writes back
`retry_count + 1` for exactly the re-enqueued rows and leaves every
other row unchanged (second conjunct); hence the bound
`retry_count ≤ max_retries` is preserved by every pass (third
conjunct). -/
theorem retry_budget_spec (maxR : Nat) (rows : List AttemptRow)
    (hkeys : (rows.map (fun r => (r.message_id, r.key))).Nodup) :
    (retry_failed_messages maxR rows).2 =
      ((get_failed rows).filter (fun ch => rowRetries ch < maxR)).map
        (fun ch => (ch.message_id, ch.key)) ∧
    (retry_failed_messages maxR rows).1 = rows.map (bumpRow maxR) ∧
    ((∀ r ∈ rows, rowRetries r ≤ maxR) →
      ∀ r ∈ (retry_failed_messages maxR rows).1, rowRetries r ≤ maxR) := by
  have hrows : rows.Nodup := List.Nodup.of_map _ hkeys
  have hinj := List.inj_on_of_nodup_map hkeys
  have hmain : (retry_failed_messages maxR rows).1 =
      rows.map (bumpRow maxR) := by
    show ((get_failed rows).foldl (retryStep maxR) (rows, [])).1 = _
    rw [retryStep_fst, foldl_retryStoreStep_eq_map]
    refine List.map_congr_left (fun r hr => ?_)
    have hnd : (get_failed rows).Nodup := hrows.filter _
    have hmatch : ∀ ch ∈ get_failed rows,
        ch.message_id = r.message_id ∧ ch.key = r.key → ch = r := by
      intro ch hch hc
      exact hinj (List.mem_of_mem_filter hch) hr (by
        simp [hc.1, hc.2])
    rw [fold_rowUpd_eval maxR (get_failed rows) r hnd hmatch]
    unfold bumpRow
    by_cases hf : r.status = "failed"
    · have : r ∈ get_failed rows := by
        simp [get_failed, List.mem_filter, hr, hf]
      by_cases hrc : rowRetries r < maxR
      · rw [if_pos ⟨this, hrc⟩, if_pos ⟨hf, hrc⟩]
      · rw [if_neg (fun hc => hrc hc.2), if_neg (fun hc => hrc hc.2)]
    · have : r ∉ get_failed rows := by
        simp [get_failed, List.mem_filter, hf]
      rw [if_neg (fun hc => this hc.1), if_neg (fun hc => hf hc.1)]
  refine ⟨?_, hmain, ?_⟩
  · show ((get_failed rows).foldl (retryStep maxR) (rows, [])).2 = _
    rw [retryStep_snd]
    simp
  · intro hb r hr
    rw [hmain] at hr
    obtain ⟨r0, hr0, hr0e⟩ := List.mem_map.mp hr
    subst hr0e
    unfold bumpRow
    by_cases hc : r0.status = "failed" ∧ rowRetries r0 < maxR
    · rw [if_pos hc]
      show (Option.some (rowRetries r0 + 1)).getD 0 ≤ maxR
      have := hc.2
      simp [Option.getD]
      omega
    · rw [if_neg hc]
      exact hb r0 hr0

/-- Concrete rows for the C4 witness: one failed row with budget left,
one failed row with its budget exhausted. -/
def attemptRowsW : List AttemptRow :=
  [⟨"m1", "c1", "failed", some 1⟩, ⟨"m2", "c2", "failed", some 3⟩]

/-- C4 (witness): `retry_budget_spec` on the two concrete rows with
`max_retries = 3`: only the first row is re-submitted and bumped, and
the bound holds on the bumped row afterwards. -/
theorem retry_budget_spec_witness :
    (retry_failed_messages 3 attemptRowsW).1 =
      attemptRowsW.map (bumpRow 3) ∧
    rowRetries ⟨"m1", "c1", "failed", some 2⟩ ≤ 3 :=
  ⟨(retry_budget_spec 3 attemptRowsW (by decide)).2.1,
   (retry_budget_spec 3 attemptRowsW (by decide)).2.2 (by decide)
     ⟨"m1", "c1", "failed", some 2⟩ (by decide)⟩

/-! ## C8 — credential rejection on /push -/

/-- C8: the `require_token` decorator answers `code 1001`/HTTP 401 —
leaving the store untouched, so before any Message row is created —
when the token parameter is absent or empty, unknown, found but not
`enabled`, or found `enabled` with an `expires_at` string that parses
to an instant before `now`. -/
theorem credential_rejection_spec (tokens : List APITokenRec)
    (parse : String → Option Int) (now : Int)
    (title content url channels ai : Option String)
    (store : PushStore) (msgId viewToken : String) :
    (handle_push Option.none title content url channels ai tokens
        parse now store msgId viewToken = ((1001, 401), store)) ∧
    (handle_push (some "") title content url channels ai tokens
        parse now store msgId viewToken = ((1001, 401), store)) ∧
    (∀ tv, tv ≠ "" → find_by_token tokens tv = Option.none →
      handle_push (some tv) title content url channels ai tokens
        parse now store msgId viewToken = ((1001, 401), store)) ∧
    (∀ tv tok, tv ≠ "" → find_by_token tokens tv = some tok →
      tok.status ≠ "enabled" →
      handle_push (some tv) title content url channels ai tokens
        parse now store msgId viewToken = ((1001, 401), store)) ∧
    (∀ tv tok s t, tv ≠ "" → find_by_token tokens tv = some tok →
      tok.status = "enabled" → tok.expires_at = PyValue.str s →
      s ≠ "" → parse s = some t → t < now →
      handle_push (some tv) title content url channels ai tokens
        parse now store msgId viewToken = ((1001, 401), store)) := by
  refine ⟨rfl, by simp [handle_push, require_token], ?_, ?_, ?_⟩
  · intro tv htv hfind
    simp [handle_push, require_token, if_neg htv, hfind]
  · intro tv tok htv hfind hstat
    simp [handle_push, require_token, if_neg htv, hfind, if_pos hstat]
  · intro tv tok s t htv hfind hstat hexp hs hparse ht
    have hexpired : is_expired tok.expires_at parse now = true := by
      rw [hexp]
      simp only [is_expired, pyTruthy, hparse]
      rw [if_neg (by simp [hs])]
      simp
      omega
    simp [handle_push, require_token, if_neg htv, hfind, hstat, hexpired]

/-- Concrete enabled-but-expired credential for the C8 witness. -/
def tokExpiredW : APITokenRec :=
  ⟨"id1", "TT", "enabled", PyValue.str "2020-01-01T00:00:00", [],
   Option.none⟩

/-- Concrete parse oracle of the C8/C10 witnesses: resolves the one
date string the witnesses use and fails on everything else. -/
def parseW (s : String) : Option Int :=
  if s = "2020-01-01T00:00:00" then some 1000 else Option.none

/-- C8 (witness): `credential_rejection_spec` applied at the concrete
expired credential with `now` after the expiry instant. -/
theorem credential_rejection_spec_witness :
    handle_push (some "TT") (some "hi") Option.none Option.none
        Option.none Option.none [tokExpiredW] parseW 2000
        ⟨[], [], [], [], [], []⟩ "m1" "v1" =
      ((1001, 401), ⟨[], [], [], [], [], []⟩) :=
  (credential_rejection_spec [tokExpiredW] parseW 2000
    (some "hi") Option.none Option.none Option.none Option.none
    ⟨[], [], [], [], [], []⟩ "m1" "v1").2.2.2.2 "TT" tokExpiredW
    "2020-01-01T00:00:00" 1000 (by decide) (by decide) (by decide)
    (by decide) (by decide) (by decide) (by decide)

/-! ## C10 — lenient expiry parsing -/

/-- C10: when `expires_at` is a non-empty string that does not parse
as ISO-8601 (the `ValueError` branch), or any non-string value (the
final `return False`), `is_expired` answers `False`; hence such an
`enabled` credential has `is_valid() = True` and passes
`require_token`, however far in the past the intended expiry lies. -/
theorem lenient_expiry_spec (tokens : List APITokenRec)
    (parse : String → Option Int) (now : Int) (tok : APITokenRec)
    (tv : String) (hstat : tok.status = "enabled")
    (hexp : (∃ s, tok.expires_at = PyValue.str s ∧ s ≠ "" ∧
              parse s = Option.none) ∨
            (∃ b, tok.expires_at = PyValue.other b))
    (htv : tv ≠ "") (hfind : find_by_token tokens tv = some tok) :
    is_expired tok.expires_at parse now = false ∧
    is_valid tok parse now = true ∧
    require_token (some tv) tokens parse now = Except.ok tok := by
  have hnotexp : is_expired tok.expires_at parse now = false := by
    rcases hexp with ⟨s, hs, hne, hparse⟩ | ⟨b, hb⟩
    · rw [hs]
      simp only [is_expired, pyTruthy, hparse]
      rw [if_neg (by simp [hne])]
    · rw [hb]
      cases b <;> simp [is_expired, pyTruthy]
  refine ⟨hnotexp, ?_, ?_⟩
  · simp [is_valid, is_enabled, hstat, hnotexp]
  · simp [require_token, if_neg htv, hfind, hstat, hnotexp]

/-- Concrete credential with an unparseable expiry for the C10
witness. -/
def tokLenientW : APITokenRec :=
  ⟨"id2", "TU", "enabled", PyValue.str "not-a-date", [], Option.none⟩

/-- C10 (witness): `lenient_expiry_spec` at the concrete credential
whose `expires_at` does not parse: it is accepted. -/
theorem lenient_expiry_spec_witness :
    is_expired tokLenientW.expires_at parseW 99999 = false ∧
    is_valid tokLenientW parseW 99999 = true ∧
    require_token (some "TU") [tokLenientW] parseW 99999 =
      Except.ok tokLenientW :=
  lenient_expiry_spec [tokLenientW] parseW 99999 tokLenientW "TU"
    (by decide)
    (Or.inl ⟨"not-a-date", rfl, by decide, by decide⟩)
    (by decide) (by decide)

/-! ## C9 — disabled-channel rejection -/

/-- When no requested channel is valid, the channel loop adds nothing:
no valid channel is collected and no attempt row is inserted. -/
theorem pushChannelLoop_all_bad (msgId : String) :
    ∀ (cl : List String) (acc : List String × PushStore),
      (∀ cid ∈ cl, channelEnabled acc.2.channels cid = false) →
      List.foldl (pushChannelStep msgId) acc cl = acc := by
  intro cl
  induction cl with
  | nil => intro acc _; rfl
  | cons c cs ih =>
    intro acc h
    rw [List.foldl_cons]
    have hstep : pushChannelStep msgId acc c = acc := by
      unfold pushChannelStep
      rw [if_neg (by rw [h c (List.mem_cons_self c cs)]; simp)]
    rw [hstep]
    exact ih acc (fun cid hcid => h cid (List.mem_cons_of_mem c hcid))

/-- Concrete credential for the C9 counterexample. -/
def tokPushW : APITokenRec :=
  ⟨"tok1", "T", "enabled", PyValue.none, [], Option.none⟩

/-- Concrete validated parameters requesting one disabled channel. -/
def paramsPushW : PushParams :=
  ⟨some "hi", Option.none, Option.none, ["chX"], Option.none⟩

/-- Concrete store whose only channel is disabled. -/
def storePushW : PushStore :=
  ⟨[⟨"chX", "disabled"⟩], [], [], [], [], []⟩

/-- C9 (counterexample): on a request whose only channel is disabled,
the view answers `1003`/400 — but a Message row IS created (the
claim's "no Message row is created" conjunct is false): the message
is saved before the channels are validated and is not rolled back. -/
theorem disabled_channel_counterexample :
    (push_message_body tokPushW paramsPushW storePushW "m1" "v1").1 =
      (1003, 400) ∧
    (⟨"m1", "tok1", some "hi", Option.none, Option.none, "v1"⟩ :
        MessageRow) ∈
      (push_message_body tokPushW paramsPushW storePushW "m1" "v1").2.messages := by
  decide

/-- C9 (amended): on a `/push` request whose requested channel list is
non-empty and entirely unknown-or-disabled, the response is
`code 1003`/HTTP 400, a Message row for the request is created (not
rolled back), and no Attempt (`message_channels`) row exists for it. -/
theorem disabled_channel_push_spec (tok : APITokenRec) (p : PushParams)
    (store : PushStore) (msgId viewToken : String)
    (hch : p.channel_list ≠ [])
    (hbad : ∀ cid ∈ p.channel_list,
      channelEnabled store.channels cid = false)
    (hfresh : ∀ r ∈ store.message_channels, r.message_id ≠ msgId) :
    (push_message_body tok p store msgId viewToken).1 = (1003, 400) ∧
    (⟨msgId, tok.id, p.title, p.content, p.url, viewToken⟩ :
        MessageRow) ∈
      (push_message_body tok p store msgId viewToken).2.messages ∧
    ∀ r ∈ (push_message_body tok p store msgId viewToken).2.message_channels,
      r.message_id ≠ msgId := by
  have hc1 : ¬ (p.channel_list = [] ∧ tok.default_channels ≠ []) := by
    intro hc; exact hch hc.1
  have hloop : pushChannelLoop msgId p.channel_list
      (message_repo_create store
        ⟨msgId, tok.id, p.title, p.content, p.url, viewToken⟩) =
      ([], message_repo_create store
        ⟨msgId, tok.id, p.title, p.content, p.url, viewToken⟩) := by
    unfold pushChannelLoop
    exact pushChannelLoop_all_bad msgId p.channel_list _ (by
      intro cid hcid
      exact hbad cid hcid)
  have hbody : push_message_body tok p store msgId viewToken =
      ((1003, 400), message_repo_create store
        ⟨msgId, tok.id, p.title, p.content, p.url, viewToken⟩) := by
    simp only [push_message_body, if_neg hc1, if_neg hch, if_pos hch,
      hloop]
    simp [hch]
  rw [hbody]
  refine ⟨rfl, ?_, ?_⟩
  · simp [message_repo_create]
  · intro r hr
    exact hfresh r hr

/-- C9 (witness): `disabled_channel_push_spec` at a store holding one
disabled channel and a request naming only that channel. -/
theorem disabled_channel_push_spec_witness :
    (push_message_body tokPushW paramsPushW storePushW "m2" "v2").1 =
      (1003, 400) ∧
    (⟨"m2", "tok1", some "hi", Option.none, Option.none, "v2"⟩ :
        MessageRow) ∈
      (push_message_body tokPushW paramsPushW storePushW
        "m2" "v2").2.messages := by
  have h := disabled_channel_push_spec tokPushW paramsPushW storePushW
    "m2" "v2" (by decide) (by decide) (by decide)
  exact ⟨h.1, h.2.1⟩

end MessagePusher
